import Mathlib

/-!
Verification of the SublimeHaskell symbol/worker subsystem
(`src/symbols.py`, `src/worker.py`) against its specification.

Python strings are modelled as `List Char`, Python `None` as `Option.none`,
Python exceptions as values of `PyExc` with fallible code returning
`Except PyExc _`.  Machine-level details (Unicode classes beyond ASCII,
object identity) are modelled explicitly where a claim depends on them:
object identity of `Module` objects is modelled by a numeric `id` field
(two distinct Python objects have distinct ids).
-/

namespace SH

/-- Python strings. -/
abbrev Str := List Char

/-- Python exceptions raised by the code under verification. -/
inductive PyExc where
  | attributeError (msg : Str)
  | runtimeError (msg : Str)
  | typeError (msg : Str)
  | exception (msg : Str)
  deriving DecidableEq, Repr

/-- `str(e)` for an exception: Python prints the message it was built with. -/
def PyExc.str : PyExc → Str
  | .attributeError m => m
  | .runtimeError m => m
  | .typeError m => m
  | .exception m => m

/-- Python truthiness of an optional string: `None` and `''` are falsy. -/
def truthyOptStr : Option Str → Bool
  | none => false
  | some s => !s.isEmpty

/-- `'{0}'.format(x)` where `x` is an optional string: `None` prints as `None`. -/
def pyStr : Option Str → Str
  | none => ['N', 'o', 'n', 'e']
  | some s => s

/-! ### `html.escape` (used with `quote=False` and `quote=True` in `symbols.py`) -/

/-- One character of `html.escape(s, quote=False)`:
`&`, `<`, `>` are replaced by entities, all else passes through. -/
def escChar (c : Char) : Str :=
  if c = '&' then "&amp;".toList
  else if c = '<' then "&lt;".toList
  else if c = '>' then "&gt;".toList
  else [c]

/-- `html.escape(s, quote=False)`; the sequential `str.replace` passes of the
Python implementation are equivalent to this character-wise map. -/
def htmlEscape (s : Str) : Str := s.flatMap escChar

/-- One character of `html.escape(s, quote=True)`: additionally replaces
`"` and the apostrophe (character 39). -/
def escCharQ (c : Char) : Str :=
  if c = '&' then "&amp;".toList
  else if c = '<' then "&lt;".toList
  else if c = '>' then "&gt;".toList
  else if c = '"' then "&quot;".toList
  else if c = Char.ofNat 39 then "&#x27;".toList
  else [c]

/-- `html.escape(s)` with the default `quote=True`. -/
def htmlEscapeQ (s : Str) : Str := s.flatMap escCharQ

/-! ### Decimal rendering of numbers (`str(n)` on a non-negative int) -/

/-- The decimal digit character for `n < 10`. -/
def digitChar (n : Nat) : Char := Char.ofNat (48 + n)

/-- Fuel-driven decimal printer; with fuel `≥ n` it is Python `str(n)`. -/
def natStrAux : Nat → Nat → Str
  | 0, _ => []
  | f + 1, n =>
    if n < 10 then [digitChar n]
    else natStrAux f (n / 10) ++ [digitChar (n % 10)]

/-- Python `str(n)` for a non-negative integer `n`. -/
def natStr (n : Nat) : Str := natStrAux (n + 1) n

/-! ### `Position` (symbols.py, class Position) -/

/-- `Position(line, column)`; `column` may be `None` (line-only position).
Lines and columns in the claims under study are non-negative. -/
structure Position where
  line : Nat
  column : Option Nat
  deriving DecidableEq, Repr

/-- `Position.to_string`: `str(line)` when the column is `None`,
otherwise `':'.join([str(line), str(column)])`. -/
def Position.to_string (p : Position) : Str :=
  match p.column with
  | none => natStr p.line
  | some c => natStr p.line ++ ':' :: natStr c

/-! ### `Package` and `parse_package` (symbols.py lines 63-83) -/

/-- `Package(name, version)`; `version` defaults to `None`. -/
structure Package where
  name : Str
  version : Option Str
  deriving DecidableEq, Repr

/-- `Package.package_id`: `'{0}-{1}'.format(name, version)` when a version is
present, otherwise just the name. -/
def Package.package_id (p : Package) : Str :=
  match p.version with
  | some v => p.name ++ '-' :: v
  | none => p.name

/-- The character class `\w` of Python `re` (ASCII part): letters, digits
and underscore. -/
def isWordChar (c : Char) : Bool := c.isAlphanum || c == '_'

/-- The character class `[\w\-]` of the package-id regex. -/
def isWordHyphen (c : Char) : Bool := isWordChar c || c == '-'

/-- The character class `[\d\.]` of the package-id regex. -/
def isDigitDot (c : Char) : Bool := c.isDigit || c == '.'

/-- A split point `k` at which the regex `([\w\-]+)\-([\d\.]+)` can match a
prefix of `s` anchored at 0: the first group takes `s[0:k]` (non-empty, all
word/hyphen characters), then `s[k]` is the literal `-` and `s[k+1]` starts
the second group `[\d\.]+`. -/
def validSplit (s : Str) (k : Nat) : Bool :=
  decide (1 ≤ k) && decide (k ≤ (s.takeWhile isWordHyphen).length) &&
    (s[k]? == some '-') && ((s[k + 1]?).elim false isDigitDot)

/-- Largest valid split point `≤` the first argument, if any: Python regex
backtracking makes the greedy first group as long as possible. -/
def bestSplitAux (s : Str) : Nat → Option Nat
  | 0 => none
  | k + 1 => if validSplit s (k + 1) then some (k + 1) else bestSplitAux s k

/-- `re.match('([\w\-]+)\-([\d\.]+)', s)`: on success returns the two groups;
the second group extends greedily over `[\d\.]` characters (the overall match
need not reach the end of `s`). -/
def reMatchPkg (s : Str) : Option (Str × Str) :=
  match bestSplitAux s s.length with
  | some k => some (s.take k, (s.drop (k + 1)).takeWhile isDigitDot)
  | none => none

/-- `re.match('([\w\-]+)', s)`: the greedy group is the maximal word/hyphen
prefix of `s`; there is no match when that prefix is empty. -/
def reMatchName (s : Str) : Option Str :=
  let p := s.takeWhile isWordHyphen
  if p.isEmpty then none else some p

/-- `parse_package` (symbols.py lines 72-83). -/
def parse_package : Option Str → Option Package
  | none => none
  | some s =>
    match reMatchPkg s with
    | some (n, v) => some ⟨n, some v⟩
    | none =>
      match reMatchName s with
      | some n => some ⟨n, none⟩
      | none => none

/-! ### `PackageDb` (symbols.py lines 86-118) -/

/-- `PackageDb`: the constructor normalises to exactly one active field
(or none at all if every argument is falsy). -/
structure PackageDb where
  global_db : Bool
  user_db : Bool
  package_db : Option Str
  deriving DecidableEq, Repr

/-- `PackageDb.__init__(global_db, user_db, package_db)`: first truthy
argument wins; an empty-string `package_db` is falsy and ignored. -/
def PackageDb.mk_init (g u : Bool) (p : Option Str) : PackageDb :=
  if g then ⟨true, false, none⟩
  else if u then ⟨false, true, none⟩
  else if truthyOptStr p then ⟨false, false, p⟩
  else ⟨false, false, none⟩

/-- `PackageDb.to_string`: `'global-db'`, `'user-db'`, the sandbox path, or
(falling off the end of the Python function) `None`. -/
def PackageDb.to_string (db : PackageDb) : Option Str :=
  if db.global_db then some "global-db".toList
  else if db.user_db then some "user-db".toList
  else if truthyOptStr db.package_db then db.package_db
  else none

/-! ### The three location classes (symbols.py lines 35-165)

`Location`, `InstalledLocation` and `OtherLocation` are modelled as one
tagged union; the Python `type(x) == C` tests become discriminant tests.
-/

/-- The three location variants.  `src` is class `Location` (filename +
project), `installed` is class `InstalledLocation` (package + package-db),
`other` is class `OtherLocation` (opaque source tag). -/
inductive Loc where
  | src (filename : Option Str) (project : Option Str)
  | installed (package : Option Package) (db : PackageDb)
  | other (source : Option Str)
  deriving DecidableEq, Repr

/-- `Location.get_id` returns `self.filename` (possibly `None`). -/
def Loc.get_id_src (f : Option Str) : Option Str := f

/-- `InstalledLocation.get_id`:
`'{0}:{1}'.format(db.to_string(), package.package_id())`.  A `None` package
raises `AttributeError`; a `None` db string formats as `'None'`. -/
def Loc.get_id_installed (package : Option Package) (db : PackageDb) :
    Except PyExc Str :=
  match package with
  | none => .error (.attributeError "NoneType object has no attribute package_id".toList)
  | some p => .ok (pyStr db.to_string ++ ':' :: p.package_id)

/-- `OtherLocation.get_id`: `'[{0}]'.format(source)`. -/
def Loc.get_id_other (source : Option Str) : Str :=
  '[' :: pyStr source ++ [']']

/-- `get_id` across the union.  The result is a Python value that is either
`None` (plain `Location` with a `None` filename) or a string, so the common
result type is `Option Str`. -/
def Loc.get_id : Loc → Except PyExc (Option Str)
  | .src f _ => .ok (Loc.get_id_src f)
  | .installed p db => (Loc.get_id_installed p db).map some
  | .other s => .ok (some (Loc.get_id_other s))

/-! ### The background worker (worker.py)

A queued job is `(name, fn, args, kwargs)`; the call `fn(*args, **kwargs)`
either returns or raises, so a job is modelled by its name and the outcome
of that call.  The `log(...)` helper imported from `sublime_haskell_common`
only emits its message, which we collect in a log list.
-/

/-- One queued job: its name and the outcome of `fn(*args, **kwargs)`. -/
structure Job where
  name : Str
  run : Except PyExc Unit

/-- The message logged by `Worker.run` when a job raises:
`'worker: job {0} fails with {1}'.format(name, e)`. -/
def logMsg (name : Str) (e : PyExc) : Str :=
  "worker: job ".toList ++ name ++ " fails with ".toList ++ e.str

namespace Worker

/-- `Worker.async`: `self.jobs.put(...)` appends to the FIFO queue. -/
def async (q : List Job) (j : Job) : List Job := q ++ [j]

/-- `Worker.run`, processing the currently queued jobs: each iteration
dequeues the front job, runs it inside `try/except Exception`, logging a
failure and continuing with the next job either way.  Returns the names of
the jobs executed, in execution order, and the log messages emitted. -/
def run : List Job → List Str × List Str
  | [] => ([], [])
  | j :: rest =>
    let (t, lg) := run rest
    match j.run with
    | .ok _ => (j.name :: t, lg)
    | .error e => (j.name :: t, logMsg j.name e :: lg)

end Worker

/-! ### The entity model (symbols.py: Symbol, Import, Declaration, Module)

`Module` objects own `Declaration` objects; the Python object graph is
cyclic (`module.declarations[n].module is module`), so the back reference
inside a declaration is modelled by a snapshot `ModuleB` of the owning
module's identity (`id`), name and location.  Python's identity comparison
`!=` on modules becomes comparison of `id` fields.
-/

/-- `Import(module_name, is_qualified, import_as, position, location)`. -/
structure Import where
  module : Str
  is_qualified : Bool
  import_as : Option Str
  position : Option Position
  location : Option Loc
  deriving DecidableEq, Repr

/-- The identity/name/location view of a module stored in the `module` and
`defined` back references of a declaration. -/
structure ModuleB where
  id : Nat
  name : Str
  location : Option Loc
  deriving DecidableEq, Repr

/-- The kind-specific payload of a declaration: base `Declaration`,
`Function` (adds `type`), or the `TypeBase` family `Type`/`Newtype`/`Data`/
`Class` (adds `context`, `args`, `definition`).  `TypeBase.popup_brief`
calls `self.context.split(', ')`, a string method, so `context` is modelled
as the optional string that method requires. -/
inductive DeclKind where
  | base
  | function (type : Option Str)
  | typeBase (context : Option Str) (args : List Str) (definition : Option Str)
  deriving DecidableEq, Repr

/-- A `Declaration` (any variant).  `locationAttr` models the `location`
attribute that only exists after a module has back-attributed the
declaration: `none` = attribute absent, `some l` = attribute set to `l`
(which is itself the owning module's possibly-`None` location). -/
structure Decl where
  what : Str
  name : Str
  docs : Option Str
  imported : List Import
  defined : Option ModuleB
  position : Option Position
  module : Option ModuleB
  locationAttr : Option (Option Loc)
  kind : DeclKind
  deriving DecidableEq, Repr

/-- A `Module` (symbols.py lines 216-268).  `id` models Python object
identity.  `exports = none` models the attribute being left unset when the
constructor argument is `None`.  The `declarations` dict is an association
list with Python-dict insertion order. -/
structure Module where
  id : Nat
  what : Str
  name : Str
  exports : Option (List Str)
  imports : List Import
  declarations : List (Str × Decl)
  location : Option Loc
  last_inspection_time : Nat
  deriving DecidableEq, Repr

/-- The back-reference view of a module. -/
def Module.toB (m : Module) : ModuleB := ⟨m.id, m.name, m.location⟩

/-- Python `dict` lookup on the association-list model. -/
def dictLookup (l : List (Str × Decl)) (k : Str) : Option Decl :=
  match l with
  | [] => none
  | (k', v) :: rest => if k' = k then some v else dictLookup rest k

/-- Python `dict` assignment `d[k] = v`: replaces in place if the key is
present, otherwise appends (insertion order is preserved). -/
def dictInsert (l : List (Str × Decl)) (k : Str) (v : Decl) : List (Str × Decl) :=
  match l with
  | [] => [(k, v)]
  | (k', v') :: rest =>
    if k' = k then (k', v) :: rest else (k', v') :: dictInsert rest k v

/-- `Module.__init__` (symbols.py lines 220-239): stores the location,
copies `exports` when not `None`, copies `imports` and back-attributes each
with the module's own location, copies `declarations` and back-attributes
each value with the module's location and with the module itself. -/
def Module.mk_init (id : Nat) (module_name : Str) (exports : Option (List Str))
    (imports : List Import) (declarations : List (Str × Decl))
    (location : Option Loc) (last_inspection_time : Nat) : Module :=
  let selfB : ModuleB := ⟨id, module_name, location⟩
  { id := id
    what := "module".toList
    name := module_name
    exports := exports
    imports := imports.map fun i => { i with location := location }
    declarations := declarations.map fun kd =>
      (kd.1, { kd.2 with locationAttr := some location, module := some selfB })
    location := location
    last_inspection_time := last_inspection_time }

/-- `Module.add_declaration` (symbols.py lines 241-247):

```
if not new_declaration.module:
    new_declaration.module = self
new_declaration.location = self.location
if new_declaration.module != self:
    raise RuntimeError("Adding declaration to other module")
self.declarations[new_declaration.name] = new_declaration
```

Mutation is modelled by returning the updated module and the (possibly
mutated) declaration next to the `raise`/return outcome; `!=` on modules is
Python object identity, i.e. comparison of `id` fields. -/
def Module.add_declaration (self : Module) (new_declaration : Decl) :
    Except PyExc Unit × Module × Decl :=
  let nd1 :=
    match new_declaration.module with
    | none => { new_declaration with module := some self.toB }
    | some _ => new_declaration
  let nd2 := { nd1 with locationAttr := some self.location }
  match nd2.module with
  | some mb =>
    if mb.id = self.id then
      (.ok (), { self with declarations := dictInsert self.declarations nd2.name nd2 }, nd2)
    else
      (.error (.runtimeError "Adding declaration to other module".toList), self, nd2)
  | none =>
    (.error (.runtimeError "Adding declaration to other module".toList), self, nd2)

/-! ### `same_module` (symbols.py lines 558-566) -/

/-- Python attribute lookup `m.cabal` on a `Module` object.
`Symbol.__init__` sets `what`, `name` and `tags`; `Module.__init__` adds
`location`, (optionally) `exports`, `imports`, `declarations` and
`last_inspection_time`.  No code in the repository ever assigns a `cabal`
attribute to a `Module`, so the lookup raises `AttributeError` (message
modelled without the quote characters of the CPython text). -/
def Module.getattr_cabal (_ : Module) : Except PyExc (Option Str) :=
  .error (.attributeError "Module object has no attribute cabal".toList)

/-- Python attribute lookup `loc.filename`: only the plain `Location` class
defines it. -/
def Loc.filename_attr : Loc → Except PyExc (Option Str)
  | .src f _ => .ok f
  | .installed _ _ => .error (.attributeError "InstalledLocation object has no attribute filename".toList)
  | .other _ => .error (.attributeError "OtherLocation object has no attribute filename".toList)

/-- `same_module(l, r)` (symbols.py lines 558-566).  The body evaluates
`l.cabal` first, so on actual `Module` objects the `AttributeError` from
`Module.getattr_cabal` propagates before anything else runs. -/
def same_module (l r : Module) : Except PyExc Bool := do
  let lcab ← l.getattr_cabal
  let rcab ← r.getattr_cabal
  let same_cabal := truthyOptStr lcab && truthyOptStr rcab && (lcab == rcab)
  let same_filename ←
    match l.location, r.location with
    | some ll, some rl => do
      let lf ← ll.filename_attr
      let rf ← rl.filename_attr
      pure (lf == rf)
    | _, _ => pure false
  let nowhere := !truthyOptStr lcab && l.location.isNone
    && !truthyOptStr rcab && r.location.isNone
  pure (l.name == r.name && (same_cabal || same_filename || nowhere))

/-! ### `escape_text` (symbols.py lines 271-283) -/

/-- The ASCII part of the Python regex class `\s` as it can occur inside a
single line (no newline). -/
def isPySpace (c : Char) : Bool :=
  c == ' ' || c == '\t' || c == '\r' || c == Char.ofNat 11 || c == Char.ofNat 12

/-- Python `str.splitlines` restricted to `\n` newlines: split on `\n`,
with no trailing empty line for a trailing newline, and `[]` for `""`. -/
def splitlines (s : Str) : List Str :=
  let parts := List.splitOn '\n' s
  match parts.getLast? with
  | some [] => parts.dropLast
  | _ => parts

/-- One line of `escape_text`: each leading whitespace character becomes
`&nbsp;` and the remainder is HTML-escaped (`quote=False`). -/
def escapeLine (line : Str) : Str :=
  let n := (line.takeWhile isPySpace).length
  (List.replicate n "&nbsp;".toList).flatten ++ htmlEscape (line.drop n)

/-- `escape_text`: escape each line, join with `<br>`. -/
def escape_text (txt : Str) : Str :=
  List.intercalate "<br>".toList ((splitlines txt).map escapeLine)

/-! ### `format_type` (symbols.py lines 414-433) -/

/-- A token matched by the regex `([a-zA-Z]\w*)|(->|=>|::)`:
group 1 (an identifier) or group 2 (one of the three operators). -/
inductive FTTok where
  | ident (s : Str)
  | op (s : Str)
  deriving DecidableEq, Repr

/-- The operator alternative `(->|=>|::)` of the `format_type` regex, tried
at the position starting with `c`: returns the matched token and the
remainder. -/
def opTok (c : Char) (rest : Str) : Option (Str × Str) :=
  match rest with
  | [] => none
  | c2 :: r =>
    if c = '-' ∧ c2 = '>' then some (['-', '>'], r)
    else if c = '=' ∧ c2 = '>' then some (['=', '>'], r)
    else if c = ':' ∧ c2 = ':' then some ([':', ':'], r)
    else none

/-- `re.search(r'([a-zA-Z]\w*)|(->|=>|::)', expr)` with leftmost-first
semantics: returns the text before the match, the matched token and the
text after it.  At each position group 1 (`[a-zA-Z]\w*`, greedy) is tried
before group 2. -/
def ftSearch : Str → Option (Str × FTTok × Str)
  | [] => none
  | c :: rest =>
    if c.isAlpha then
      some ([], .ident (c :: rest.takeWhile isWordChar), rest.dropWhile isWordChar)
    else
      match opTok c rest with
      | some tr => some ([], .op tr.1, tr.2)
      | none => (ftSearch rest).map fun pr => (c :: pr.1, pr.2.1, pr.2.2)

/-- `'<span class="{0}">'` -/
def spanOpen (cls : Str) : Str := "<span class=\"".toList ++ cls ++ "\">".toList

/-- `'<span class="{0}">{1}</span>'` -/
def spanWrap (cls body : Str) : Str := spanOpen cls ++ body ++ "</span>".toList

/-- `'<a href="{0}">{1}</a>'` -/
def linkWrap (url body : Str) : Str :=
  "<a href=\"".toList ++ url ++ '"' :: '>' :: (body ++ "</a>".toList)

/-- The class of an identifier token: `'type'` when the first character is
upper case, `'tyvar'` otherwise. -/
def identClass (s : Str) : Str :=
  match s with
  | c :: _ => if c.isUpper then "type".toList else "tyvar".toList
  | [] => "tyvar".toList

/-- The `<span>`-decorated, escaped form of a matched token. -/
def spanFor : FTTok → Str
  | .ident s => spanWrap (identClass s) (htmlEscape s)
  | .op s => spanWrap "operator".toList (htmlEscape s)

/-- `format_type` with explicit fuel; each recursion step consumes at least
one character of the input, so fuel `≥ length` reproduces the Python
recursion exactly (see `format_typeF_fuel` below). -/
def format_typeF : Nat → Str → Str
  | 0, expr => htmlEscape expr
  | f + 1, expr =>
    match ftSearch expr with
    | some (pre, tok, post) => htmlEscape pre ++ spanFor tok ++ format_typeF f post
    | none => htmlEscape expr

/-- `format_type(expr)` (symbols.py lines 414-433): escape the text before
the leftmost token, wrap the token in a classified `<span>`, recurse on the
remainder; with no token left, return the escaped remainder. -/
def format_type (expr : Str) : Str := format_typeF expr.length expr

/-! ### Declaration rendering (symbols.py lines 286-512) -/

/-- `Declaration.defined_module`: `self.defined or self.module`. -/
def Decl.defined_module (d : Decl) : Option ModuleB := d.defined <|> d.module

/-- `type(loc) == Location` on an optional location. -/
def locIsSrc : Option Loc → Bool
  | some (.src _ _) => true
  | _ => false

/-- `Declaration.by_source`: `type(self.defined_module().location) ==
Location`; raises `AttributeError` when `defined_module()` is `None`. -/
def Decl.by_source (d : Decl) : Except PyExc Bool :=
  match d.defined_module with
  | none => .error (.attributeError "NoneType object has no attribute location".toList)
  | some m => .ok (locIsSrc m.location)

/-- `Declaration.has_source_location`:
`self.by_source() and self.position is not None`. -/
def Decl.has_source_location (d : Decl) : Except PyExc Bool :=
  d.by_source.map fun b => b && d.position.isSome

/-- `str(loc)` = `loc.to_string()`, which must return a string:
a `None` filename makes `str` raise `TypeError`; an `InstalledLocation`
with a `None` package raises `AttributeError` inside `to_string`. -/
def Loc.strMeth : Loc → Except PyExc Str
  | .src f _ =>
    match f with
    | some fs => .ok fs
    | none => .error (.typeError "str returned non-string".toList)
  | .installed p db =>
    match p with
    | some pk => .ok (pk.package_id ++ " in ".toList ++ pyStr db.to_string)
    | none => .error (.attributeError "NoneType object has no attribute package_id".toList)
  | .other s => .ok (s.getD [])

/-- `source_location(loc, pos)` (symbols.py lines 56-60):
`str(loc)` when `pos` is absent, else `'{loc}:{pos}'`. -/
def source_location (loc : Loc) (pos : Option Position) : Except PyExc Str :=
  match pos with
  | none => loc.strMeth
  | some p => loc.strMeth.map fun ls => ls ++ ':' :: p.to_string

/-- `Declaration.get_source_location`: the `source_location` string when
`has_source_location()`, else `None`. -/
def Decl.get_source_location (d : Decl) : Except PyExc (Option Str) := do
  if (← d.has_source_location) then
    match d.defined_module with
    | some m =>
      match m.location with
      | some loc => (source_location loc d.position).map some
      | none => .error (.attributeError "unreachable: no location".toList)
    | none => .error (.attributeError "unreachable: no module".toList)
  else
    pure none

/-- The recurring pattern `'<a href="{0}">{1}</a>'.format(html.escape(
self.get_source_location()), info)` guarded by `has_source_location()`,
shared by the `popup_brief` implementations. -/
def Decl.link_source_info (d : Decl) (info : Str) : Except PyExc Str := do
  if (← d.has_source_location) then
    match (← d.get_source_location) with
    | some sl => pure (linkWrap (htmlEscapeQ sl) info)
    | none => .error (.attributeError "NoneType object has no attribute replace".toList)
  else
    pure info

/-- Lexicographic (code-point) string comparison, Python `<=` on `str`. -/
def strLe : Str → Str → Bool
  | [], _ => true
  | _ :: _, [] => false
  | c1 :: t1, c2 :: t2 => if c1 == c2 then strLe t1 t2 else decide (c1 < c2)

/-- Insertion into an ascending list. -/
def insertSorted (x : Str) : List Str → List Str
  | [] => [x]
  | y :: ys => if strLe x y then x :: y :: ys else y :: insertSorted x ys

/-- `sorted(...)` on a list of strings. -/
def sortStr (l : List Str) : List Str := l.foldr insertSorted []

/-- `Declaration.imported_names`:
`sorted(list(set([i.module for i in self.imported])))` if `self.imported`
else `[]`. -/
def Decl.imported_names (d : Decl) : List Str :=
  if d.imported.isEmpty then [] else sortStr (d.imported.map Import.module).dedup

/-- The `.` → `-` replacement of the module name in the hackage URL. -/
def dotDash (c : Char) : Char := if c = '.' then '-' else c

/-- `'http://hackage.haskell.org/package/{0}/docs/{1}.html'` with the
package id and the dash-separated module name. -/
def hackage_url (p : Package) (modname : Str) : Str :=
  "http://hackage.haskell.org/package/".toList ++ p.package_id
    ++ "/docs/".toList ++ modname.map dotDash ++ ".html".toList

/-- `Function.popup_brief` (symbols.py lines 452-456). -/
def Decl.popup_brief_function (d : Decl) (ty : Option Str) : Except PyExc Str := do
  let info ← d.link_source_info (spanWrap "function".toList (htmlEscape d.name))
  pure (info ++ " <span class=\"operator\">::</span> ".toList
    ++ format_type (if truthyOptStr ty then ty.getD [] else ['?']))

/-- `str.split(', ')` (substring separator, as used on `self.context`). -/
def splitCommaSpace : Str → List Str
  | [] => [[]]
  | ',' :: ' ' :: rest => [] :: splitCommaSpace rest
  | c :: rest =>
    match splitCommaSpace rest with
    | h :: t => (c :: h) :: t
    | [] => [[c]]

/-- `TypeBase.popup_brief` (symbols.py lines 495-512). -/
def Decl.popup_brief_typebase (d : Decl) (context : Option Str) (args : List Str) :
    Except PyExc Str := do
  let parts0 : List Str := [spanWrap "keyword".toList (htmlEscape d.what)]
  let parts1 : List Str :=
    if truthyOptStr context then
      match splitCommaSpace (context.getD []) with
      | [c] => parts0 ++ [format_type (c ++ " =>".toList)]
      | ctx => parts0 ++ [format_type ('(' :: List.intercalate ", ".toList ctx ++ ") =>".toList)]
    else parts0
  let name_part ← d.link_source_info (spanWrap "type".toList (htmlEscape d.name))
  let parts2 := parts1 ++ [name_part]
  let parts3 :=
    if args.isEmpty then parts2
    else parts2 ++ [format_type (List.intercalate [' '] args)]
  pure (List.intercalate [' '] parts3)

/-- `popup_brief`, dispatched on the dynamic class of the declaration. -/
def Decl.popup_brief (d : Decl) : Except PyExc Str :=
  match d.kind with
  | .base => d.link_source_info (spanWrap "function".toList (htmlEscape d.name))
  | .function ty => d.popup_brief_function ty
  | .typeBase ctx args _ => d.popup_brief_typebase ctx args

/-- `4 * '&nbsp;'` -/
def nbsp4 : Str := "&nbsp;&nbsp;&nbsp;&nbsp;".toList

/-- `Declaration.popup` (symbols.py lines 381-405). -/
def Decl.popup (d : Decl) : Except PyExc Str := do
  let pb ← d.popup_brief
  let importedPart : Str :=
    if d.imported_names.isEmpty then []
    else "<br>".toList ++ nbsp4 ++ "<span class=\"comment\">-- Imported from ".toList
      ++ htmlEscape (List.intercalate ", ".toList d.imported_names) ++ "</span>".toList
  let definedPart : Str ←
    match d.defined_module with
    | none => pure []
    | some m => do
      let mref0 := htmlEscape m.name
      let mref ←
        match m.location with
        | some (.src f _) => pure (linkWrap (pyStr f) mref0)
        | some (.installed p _) =>
          match p with
          | some pk => pure (linkWrap (htmlEscapeQ (hackage_url pk m.name)) mref0)
          | none => .error (.attributeError "NoneType object has no attribute package_id".toList)
        | _ => pure mref0
      pure ("<br>".toList ++ nbsp4 ++ "<span class=\"comment\">-- Defined in ".toList
        ++ mref ++ "</span>".toList)
  let docsPart : Str :=
    if truthyOptStr d.docs then
      "<p><span class=\"docs\">".toList ++ escape_text (d.docs.getD []) ++ "</span></p>".toList
    else []
  pure ("<p>".toList ++ pb ++ importedPart ++ definedPart ++ "</p>".toList ++ docsPart)

/-! ### The module ownership invariant (for the claims about `Module`) -/

/-- The invariant of §3 of the spec: every declaration reachable from
`module.declarations` is owned by this module (`declaration.module is
module`, i.e. identical object id) and carries the module's location in its
`location` attribute; every import carries the module's location. -/
def ModuleInv (m : Module) : Prop :=
  (∀ p ∈ m.declarations,
      p.2.module.map ModuleB.id = some m.id ∧ p.2.locationAttr = some m.location) ∧
  (∀ i ∈ m.imports, i.location = m.location)

/-! ### Markup safety (for the escaping claim)

`plainChar` are the characters that carry no markup meaning; a string
satisfies `SafeMarkup` when it is assembled exclusively from plain
characters, the escape entities produced by `html.escape`, the literal tags
the renderer inserts, and `<a href="...">` links whose URL part is free of
markup and quote characters.  Any raw `<`, `>` or `&` that leaked into the
output from a user-controlled field would break this predicate.
-/

/-- Characters with no markup meaning (not `<`, `>`, `&`). -/
def plainChar (c : Char) : Bool := !(c == '<' || c == '>' || c == '&')

/-- Plain and additionally neither `"` nor the apostrophe, so the character
survives `html.escape(quote=True)` unchanged and cannot close an HTML
attribute. -/
def cleanChar (c : Char) : Bool := plainChar c && c != '"' && c != Char.ofNat 39

/-- All characters clean. -/
def cleanStr (s : Str) : Bool := s.all cleanChar

/-- The escape entities `html.escape` and `escape_text` may produce. -/
def entities : List Str :=
  ["&amp;".toList, "&lt;".toList, "&gt;".toList, "&quot;".toList,
   "&#x27;".toList, "&nbsp;".toList]

/-- The literal tags inserted by the renderer in `symbols.py`. -/
def rtags : List Str :=
  ["<p>".toList, "</p>".toList, "<br>".toList, "</span>".toList, "</a>".toList,
   spanOpen "function".toList, spanOpen "comment".toList, spanOpen "docs".toList,
   spanOpen "keyword".toList, spanOpen "type".toList, spanOpen "tyvar".toList,
   spanOpen "operator".toList]

/-- Strings assembled from plain characters, escape entities, renderer tags
and renderer links with clean URLs: such a string contains no raw unescaped
`<`, `>` or `&` outside the renderer's own tags. -/
inductive SafeMarkup : Str → Prop where
  | nil : SafeMarkup []
  | plain {c : Char} {t : Str} : plainChar c = true → SafeMarkup t → SafeMarkup (c :: t)
  | ent {e t : Str} : e ∈ entities → SafeMarkup t → SafeMarkup (e ++ t)
  | tag {g t : Str} : g ∈ rtags → SafeMarkup t → SafeMarkup (g ++ t)
  | link {u t : Str} : cleanStr u = true → SafeMarkup t →
      SafeMarkup ("<a href=\"".toList ++ u ++ '"' :: '>' :: t)

/-- The environment of a declaration (package data) is clean. -/
def cleanOptPackage : Option Package → Bool
  | none => true
  | some p =>
    cleanStr p.name &&
      (match p.version with
       | none => true
       | some v => cleanStr v)

/-- The environment strings reachable from a location are clean: a source
filename, or the name/version of an installed package.  (`OtherLocation`
contributes nothing to a popup.) -/
def cleanOptLoc : Option Loc → Bool
  | some (.src f _) =>
    (match f with
     | none => true
     | some fs => cleanStr fs)
  | some (.installed p _) => cleanOptPackage p
  | some (.other _) => true
  | none => true

/-- A module back-reference with clean name and clean location strings. -/
def cleanOptModB : Option ModuleB → Bool
  | none => true
  | some m => cleanStr m.name && cleanOptLoc m.location

/-- All environment strings of a declaration - the strings rendered by the
popups that are *not* among the `name`/`docs`/`type` fields the escaping
claim is about - are clean.  The claim fields themselves stay universally
quantified. -/
def CleanEnvB (d : Decl) : Bool := cleanOptModB d.module && cleanOptModB d.defined

/-! ### Concrete instances used by witnesses and counterexamples -/

/-- A source location used in witnesses. -/
def locW : Loc := .src (some "/tmp/f.hs".toList) none

/-- `Module('A')`: the module of the `same_module` failing input. -/
def mA : Module := Module.mk_init 0 "A".toList none [] [] none 0

/-- A module with a source location, used in `add_declaration` witnesses. -/
def mW : Module := Module.mk_init 1 "M".toList none [] [] (some locW) 0

/-- A back reference to a different module (id 2). -/
def mbOther : ModuleB := ⟨2, "N".toList, none⟩

/-- A fresh declaration not yet owned by any module. -/
def dW0 : Decl :=
  ⟨"declaration".toList, "x".toList, none, [], none, none, none, none, .base⟩

/-- A declaration owned by the other module (id 2). -/
def dWother : Decl := { dW0 with module := some mbOther }

/-- A declaration already owned by `mW` itself. -/
def dWown : Decl := { dW0 with name := "y".toList, module := some mW.toB }

/-- A declaration owned by another module, with a distinct location
attribute, for the non-atomicity witness. -/
def dWc10 : Decl :=
  { dW0 with name := "z".toList, module := some mbOther,
             locationAttr := some none }

/-- A declaration whose user-controlled fields contain raw markup
characters, in a clean environment, for the escaping witness. -/
def dWc6 : Decl :=
  { what := "declaration".toList
    name := "x<y".toList
    docs := some ("a & b\n  <i>".toList)
    imported := []
    defined := none
    position := some ⟨3, some 7⟩
    module := some ⟨0, "My.Mod".toList, some locW⟩
    locationAttr := none
    kind := .base }

/-! ## Theorems -/

/-! ### Worker lemmas -/

theorem Worker.run_append (q1 q2 : List Job) :
    Worker.run (q1 ++ q2) =
      ((Worker.run q1).1 ++ (Worker.run q2).1, (Worker.run q1).2 ++ (Worker.run q2).2) := by
  induction q1 with
  | nil => simp [Worker.run]
  | cons j rest ih =>
    simp only [List.cons_append, Worker.run]
    cases j.run <;> simp [ih]

theorem Worker.run_names (q : List Job) : (Worker.run q).1 = q.map Job.name := by
  induction q with
  | nil => rfl
  | cons j rest ih =>
    simp only [Worker.run, List.map_cons]
    cases j.run <;> simp [ih]

theorem Worker.foldl_async (js : List Job) :
    ∀ acc : List Job, js.foldl Worker.async acc = acc ++ js := by
  induction js with
  | nil => simp
  | cons j rest ih => intro acc; simp [List.foldl_cons, Worker.async, ih]

/-- C1: the spec asks `same_module` to be reflexive (and symmetric) on
`Module` instances built from identical name and location data, but the
implementation reads the attribute `l.cabal`, which no `Module` instance
ever has: on the module `Module('A')` compared against itself, the call
raises `AttributeError` instead of returning `True`. -/
theorem c1_same_module_raises_on_modules :
    same_module mA mA =
      .error (.attributeError "Module object has no attribute cabal".toList) := rfl

/-- C2: any fault raised by a queued job is caught at the worker boundary:
the trace still executes every earlier and later job in order, and the
fault is reported only through a log message carrying the job name and the
fault detail (`'worker: job {0} fails with {1}'`). -/
theorem c2_worker_fault_isolated (pre post : List Job) (nm : Str) (e : PyExc) :
    (Worker.run (pre ++ ⟨nm, .error e⟩ :: post)).1
        = pre.map Job.name ++ nm :: post.map Job.name
    ∧ logMsg nm e ∈ (Worker.run (pre ++ ⟨nm, .error e⟩ :: post)).2
    ∧ logMsg nm e = "worker: job ".toList ++ nm ++ " fails with ".toList ++ e.str := by
  refine ⟨?_, ?_, rfl⟩
  · rw [Worker.run_names]; simp
  · rw [Worker.run_append]
    simp [Worker.run]

/-- C9: jobs submitted through `async` enter a FIFO queue and the single
worker loop executes them serially in exactly the submission order: the
trace of executed job names equals the submitted names in order. -/
theorem c9_worker_fifo_order (js : List Job) :
    (Worker.run (js.foldl Worker.async [])).1 = js.map Job.name := by
  rw [Worker.foldl_async js [], List.nil_append, Worker.run_names]

/-! ### Dictionary lemmas -/

theorem dictLookup_insert (l : List (Str × Decl)) (k : Str) (v : Decl) :
    dictLookup (dictInsert l k v) k = some v := by
  induction l with
  | nil => simp [dictInsert, dictLookup]
  | cons p rest ih =>
    by_cases h : p.1 = k <;> simp [dictInsert, dictLookup, h, ih]

theorem mem_dictInsert {p : Str × Decl} {l : List (Str × Decl)} {k : Str} {v : Decl}
    (hm : p ∈ dictInsert l k v) : p = (k, v) ∨ p ∈ l := by
  induction l with
  | nil => simpa [dictInsert] using hm
  | cons q rest ih =>
    by_cases h : q.1 = k
    · simp only [dictInsert, if_pos h] at hm
      rcases List.mem_cons.1 hm with h1 | h1
      · left; rw [h1, h]
      · right; exact List.mem_cons_of_mem _ h1
    · simp only [dictInsert, if_neg h] at hm
      rcases List.mem_cons.1 hm with h1 | h1
      · right; exact h1 ▸ List.mem_cons_self _ _
      · rcases ih h1 with h2 | h2
        · exact Or.inl h2
        · exact Or.inr (List.mem_cons_of_mem _ h2)

/-- C3: adding a declaration already owned by a different module raises the
ownership violation (`RuntimeError`) and leaves `M.declarations` untouched;
adding a declaration whose `module` field is unset or already `M` succeeds
and afterwards `M.declarations` maps the declaration's name to it. -/
theorem c3_add_declaration_ownership :
    (∀ (m : Module) (d : Decl) (mb : ModuleB), d.module = some mb → mb.id ≠ m.id →
        (m.add_declaration d).1
            = .error (.runtimeError "Adding declaration to other module".toList) ∧
        (m.add_declaration d).2.1.declarations = m.declarations) ∧
    (∀ (m : Module) (d : Decl), d.module = none →
        (m.add_declaration d).1 = .ok () ∧
        dictLookup (m.add_declaration d).2.1.declarations d.name
            = some (m.add_declaration d).2.2) ∧
    (∀ (m : Module) (d : Decl) (mb : ModuleB), d.module = some mb → mb.id = m.id →
        (m.add_declaration d).1 = .ok () ∧
        dictLookup (m.add_declaration d).2.1.declarations d.name
            = some (m.add_declaration d).2.2) := by
  refine ⟨?_, ?_, ?_⟩
  · intro m d mb h hne
    simp [Module.add_declaration, h, hne]
  · intro m d h
    simp [Module.add_declaration, h, Module.toB, dictLookup_insert]
  · intro m d mb h he
    simp [Module.add_declaration, h, he, dictLookup_insert]

theorem c3_witness :
    (mW.add_declaration dWother).1
        = .error (.runtimeError "Adding declaration to other module".toList)
    ∧ (mW.add_declaration dWother).2.1.declarations = mW.declarations
    ∧ (mW.add_declaration dW0).1 = .ok ()
    ∧ dictLookup (mW.add_declaration dW0).2.1.declarations dW0.name
        = some (mW.add_declaration dW0).2.2
    ∧ (mW.add_declaration dWown).1 = .ok () :=
  ⟨(c3_add_declaration_ownership.1 mW dWother mbOther rfl (by decide)).1,
   (c3_add_declaration_ownership.1 mW dWother mbOther rfl (by decide)).2,
   (c3_add_declaration_ownership.2.1 mW dW0 rfl).1,
   (c3_add_declaration_ownership.2.1 mW dW0 rfl).2,
   (c3_add_declaration_ownership.2.2 mW dWown mW.toB rfl rfl).1⟩

/-- C10: on the ownership-violation path, `add_declaration` has already
overwritten the declaration's `location` attribute with `M.location` before
raising: the module's declarations are unchanged but the passed declaration
comes back with exactly its `location` attribute mutated (the failure is
not atomic with respect to the declaration object). -/
theorem c10_add_declaration_error_mutates_location :
    ∀ (m : Module) (d : Decl) (mb : ModuleB), d.module = some mb → mb.id ≠ m.id →
      (m.add_declaration d).1
          = .error (.runtimeError "Adding declaration to other module".toList) ∧
      (m.add_declaration d).2.1.declarations = m.declarations ∧
      (m.add_declaration d).2.2 = { d with locationAttr := some m.location } := by
  intro m d mb h hne
  simp [Module.add_declaration, h, hne]

theorem c10_witness :
    (mW.add_declaration dWc10).1
        = .error (.runtimeError "Adding declaration to other module".toList)
    ∧ (mW.add_declaration dWc10).2.2 = { dWc10 with locationAttr := some mW.location }
    ∧ dWc10.locationAttr ≠ some mW.location :=
  ⟨(c10_add_declaration_error_mutates_location mW dWc10 mbOther rfl (by decide)).1,
   (c10_add_declaration_error_mutates_location mW dWc10 mbOther rfl (by decide)).2.2,
   by decide⟩

/-- C8: `Module.__init__` establishes the ownership invariant (every stored
declaration is owned by the module and carries its location; every import
carries the module's location), and every successful `add_declaration`
preserves it. -/
theorem c8_module_ownership_invariant :
    (∀ (id : Nat) (nm : Str) (ex : Option (List Str)) (imps : List Import)
        (decls : List (Str × Decl)) (loc : Option Loc) (t : Nat),
        ModuleInv (Module.mk_init id nm ex imps decls loc t)) ∧
    (∀ (m : Module) (d : Decl) (m' : Module) (d' : Decl), ModuleInv m →
        m.add_declaration d = (.ok (), m', d') → ModuleInv m') := by
  constructor
  · intro id nm ex imps decls loc t
    constructor
    · intro p hp
      simp only [Module.mk_init, List.mem_map] at hp
      obtain ⟨kd, _, rfl⟩ := hp
      simp [Module.mk_init]
    · intro i hi
      simp only [Module.mk_init, List.mem_map] at hi
      obtain ⟨i0, _, rfl⟩ := hi
      simp [Module.mk_init]
  · intro m d m' d' hinv heq
    unfold Module.add_declaration at heq
    rcases hdm : d.module with _ | mb
    all_goals simp only [hdm] at heq
    · rw [show m.toB.id = m.id from rfl, if_pos rfl] at heq
      simp only [Prod.mk.injEq] at heq
      obtain ⟨-, hm', -⟩ := heq
      subst hm'
      refine ⟨?_, hinv.2⟩
      intro p hp
      rcases mem_dictInsert hp with h1 | h1
      · subst h1; simp [Module.toB]
      · exact hinv.1 p h1
    · by_cases hid : mb.id = m.id
      · rw [if_pos hid] at heq
        simp only [Prod.mk.injEq] at heq
        obtain ⟨-, hm', -⟩ := heq
        subst hm'
        refine ⟨?_, hinv.2⟩
        intro p hp
        rcases mem_dictInsert hp with h1 | h1
        · subst h1; simp [hid]
        · exact hinv.1 p h1
      · rw [if_neg hid] at heq
        simp at heq

/-! ### Regex lemmas for `parse_package` -/

theorem tw_append_ge {p : Char → Bool} {l t : Str} (h : ∀ c ∈ l, p c = true) :
    (l ++ t).takeWhile p = l ++ t.takeWhile p := by
  rw [List.takeWhile_append, if_pos]
  rw [List.takeWhile_eq_self_iff.2 h]

theorem validSplit_zero (s : Str) : validSplit s 0 = false := by
  simp [validSplit]

theorem bestSplitAux_eq_some {s : Str} {m : Nat} (hv : validSplit s m = true)
    (hmax : ∀ j, m < j → validSplit s j = false) :
    ∀ n, m ≤ n → bestSplitAux s n = some m := by
  intro n
  induction n with
  | zero =>
    intro h0
    have hm0 : m = 0 := Nat.le_zero.1 h0
    rw [hm0, validSplit_zero] at hv
    exact absurd hv (by simp)
  | succ n ih =>
    intro hmn
    by_cases hm : m = n + 1
    · subst hm
      simp [bestSplitAux, hv]
    · have hle : m ≤ n := Nat.lt_succ_iff.1 (Nat.lt_of_le_of_ne hmn hm)
      have hfalse : validSplit s (n + 1) = false := hmax (n + 1) (Nat.lt_succ_of_le hle)
      simp [bestSplitAux, hfalse, ih hle]

theorem bestSplitAux_eq_none {s : Str} (h : ∀ j, validSplit s j = false) :
    ∀ n, bestSplitAux s n = none := by
  intro n
  induction n with
  | zero => rfl
  | succ n ih => simp [bestSplitAux, h (n + 1), ih]

theorem isDigitDot_ne_hyphen {c : Char} (h : isDigitDot c = true) : c ≠ '-' := by
  intro hc
  rw [hc] at h
  exact absurd h (by decide)

theorem reMatchPkg_roundtrip {name ver : Str} (hname : name ≠ [])
    (hnw : ∀ c ∈ name, isWordHyphen c = true) (hver : ver ≠ [])
    (hvd : ∀ c ∈ ver, isDigitDot c = true) :
    reMatchPkg (name ++ '-' :: ver) = some (name, ver) := by
  obtain ⟨v, vs, rfl⟩ : ∃ v vs, ver = v :: vs := by
    cases ver with
    | nil => exact absurd rfl hver
    | cons v vs => exact ⟨v, vs, rfl⟩
  have hsep : validSplit (name ++ '-' :: v :: vs) name.length = true := by
    have h1 : 1 ≤ name.length := List.length_pos.2 hname
    have h2 : name.length ≤ ((name ++ '-' :: v :: vs).takeWhile isWordHyphen).length := by
      rw [tw_append_ge hnw]
      simp
    have h3 : (name ++ '-' :: v :: vs)[name.length]? = some '-' := by
      rw [List.getElem?_append_right (Nat.le_refl _)]
      simp
    have h4 : (name ++ '-' :: v :: vs)[name.length + 1]? = some v := by
      rw [List.getElem?_append_right (Nat.le_succ_of_le (Nat.le_refl _))]
      simp
    simp [validSplit, h1, h2, h3, h4, hvd v (by simp)]
  have hbig : ∀ j, name.length < j → validSplit (name ++ '-' :: v :: vs) j = false := by
    intro j hj
    have h3 : ((name ++ '-' :: v :: vs)[j]? == some '-') = false := by
      cases hsj : (name ++ '-' :: v :: vs)[j]? with
      | none => rfl
      | some c =>
        have hj1 : (name ++ ['-']).length ≤ j := by
          simp only [List.length_append, List.length_cons, List.length_nil]
          omega
        rw [show name ++ '-' :: v :: vs = (name ++ ['-']) ++ v :: vs from by simp] at hsj
        rw [List.getElem?_append_right hj1] at hsj
        obtain ⟨hlt, hceq⟩ := List.getElem?_eq_some.1 hsj
        have hcm : c ∈ v :: vs := hceq ▸ List.getElem_mem hlt
        simp [isDigitDot_ne_hyphen (hvd c hcm)]
    simp [validSplit, h3]
  have hbest : bestSplitAux (name ++ '-' :: v :: vs) (name ++ '-' :: v :: vs).length
      = some name.length := by
    apply bestSplitAux_eq_some hsep hbig
    simp only [List.length_append, List.length_cons]
    omega
  have htake : (name ++ '-' :: v :: vs).take name.length = name := List.take_left name _
  have hdrop : (name ++ '-' :: v :: vs).drop (name.length + 1) = v :: vs := by
    rw [show name ++ '-' :: v :: vs = (name ++ ['-']) ++ v :: vs from by simp]
    rw [show name.length + 1 = (name ++ ['-']).length from by simp]
    exact List.drop_left _ _
  simp only [reMatchPkg, hbest, htake, hdrop]
  rw [List.takeWhile_eq_self_iff.2 hvd]

theorem parse_package_bare {name : Str} (hname : name ≠ [])
    (hnw : ∀ c ∈ name, isWordHyphen c = true)
    (hno : ∀ j, j < name.length → name[j]? = some '-' →
        ((name[j + 1]?).elim false isDigitDot) = false) :
    parse_package (some name) = some ⟨name, none⟩ := by
  have hval : ∀ j, validSplit name j = false := by
    intro j
    cases hsj : name[j]? with
    | none => simp [validSplit, hsj]
    | some c =>
      by_cases hc : c = '-'
      · subst hc
        have hjlt : j < name.length := (List.getElem?_eq_some.1 hsj).1
        simp [validSplit, hsj, hno j hjlt hsj]
      · simp [validSplit, hsj, hc]
  have hnone : bestSplitAux name name.length = bestSplitAux name name.length := rfl
  simp only [parse_package, reMatchPkg, bestSplitAux_eq_none hval name.length, reMatchName]
  rw [List.takeWhile_eq_self_iff.2 hnw]
  simp [List.isEmpty_iff, hname]

/-- C4 (amended): `parse_package` round-trips through `package_id` on every
`<name>-<version>` id (word/hyphen name, digit/dot version) and on every
bare name in which no hyphen is immediately followed by a digit or a dot,
and maps `None` to `None`.  (The bare-name half of the original claim fails
without the hyphen proviso, see the counterexample.) -/
theorem c4_parse_package_roundtrip :
    (∀ name ver : Str, name ≠ [] → (∀ c ∈ name, isWordHyphen c = true) →
        ver ≠ [] → (∀ c ∈ ver, isDigitDot c = true) →
        (parse_package (some (name ++ '-' :: ver))).map Package.package_id
          = some (name ++ '-' :: ver)) ∧
    (∀ name : Str, name ≠ [] → (∀ c ∈ name, isWordHyphen c = true) →
        (∀ j, j < name.length → name[j]? = some '-' →
            ((name[j + 1]?).elim false isDigitDot) = false) →
        (parse_package (some name)).map Package.package_id = some name) ∧
    parse_package none = none := by
  refine ⟨?_, ?_, rfl⟩
  · intro name ver h1 h2 h3 h4
    simp [parse_package, reMatchPkg_roundtrip h1 h2 h3 h4, Package.package_id]
  · intro name h1 h2 h3
    rw [parse_package_bare h1 h2 h3]
    simp [Package.package_id]

/-- C4 counterexample: the bare name `"a-1b"` (word/hyphen characters, no
version part) does not round-trip: the version regex fires on its prefix
`"a-1"` and `parse_package('a-1b').package_id()` is `'a-1'`, not `'a-1b'`. -/
theorem c4_counterexample :
    (parse_package (some "a-1b".toList)).map Package.package_id = some "a-1".toList ∧
    (parse_package (some "a-1b".toList)).map Package.package_id ≠ some "a-1b".toList := by
  constructor
  · rfl
  · decide

theorem c4_witness :
    (parse_package (some ("foo".toList ++ '-' :: "1.2".toList))).map Package.package_id
        = some ("foo".toList ++ '-' :: "1.2".toList) ∧
    (parse_package (some "john-doe".toList)).map Package.package_id
        = some "john-doe".toList :=
  ⟨c4_parse_package_roundtrip.1 "foo".toList "1.2".toList (by decide) (by decide)
      (by decide) (by decide),
   c4_parse_package_roundtrip.2.1 "john-doe".toList (by decide) (by decide) (by decide)⟩

/-- C5 (amended): `get_id` is a pure function of the location with the
stated formats - `filename` for a source `Location`,
`'<db>:<package-id>'` for an `InstalledLocation`, `'[<source>]'` for an
`OtherLocation` - and values of different variants have different ids
*provided* a source filename does not start with `[` and contains no `:`,
and the package-db string does not start with `[`.  Without these provisos
the claim's collision-freedom fails (see the counterexample). -/
theorem c5_get_id_formats_and_distinctness :
    (∀ f p, Loc.get_id (.src f p) = .ok f) ∧
    (∀ pk db, Loc.get_id (.installed (some pk) db)
        = .ok (some (pyStr db.to_string ++ ':' :: pk.package_id))) ∧
    (∀ s, Loc.get_id (.other s) = .ok (some ('[' :: pyStr s ++ [']']))) ∧
    (∀ p s, Loc.get_id (.src none p) ≠ Loc.get_id (.other s)) ∧
    (∀ fs p s, fs.head? ≠ some '[' →
        Loc.get_id (.src (some fs) p) ≠ Loc.get_id (.other s)) ∧
    (∀ p pk db, Loc.get_id (.src none p) ≠ Loc.get_id (.installed (some pk) db)) ∧
    (∀ fs p pk db, ':' ∉ fs →
        Loc.get_id (.src (some fs) p) ≠ Loc.get_id (.installed (some pk) db)) ∧
    (∀ pk db s, (pyStr db.to_string).head? ≠ some '[' →
        Loc.get_id (.installed (some pk) db) ≠ Loc.get_id (.other s)) := by
  refine ⟨fun f p => rfl, fun pk db => rfl, fun s => rfl, ?_, ?_, ?_, ?_, ?_⟩
  · intro p s heq
    simp [Loc.get_id, Loc.get_id_src, Loc.get_id_other] at heq
  · intro fs p s hf heq
    simp only [Loc.get_id, Loc.get_id_src, Loc.get_id_other, Except.ok.injEq,
      Option.some.injEq] at heq
    exact hf (by rw [heq]; rfl)
  · intro p pk db heq
    simp [Loc.get_id, Loc.get_id_src, Loc.get_id_installed, Except.map] at heq
  · intro fs p pk db hne heq
    simp only [Loc.get_id, Loc.get_id_src, Loc.get_id_installed, Except.map,
      Except.ok.injEq, Option.some.injEq] at heq
    exact hne (by
      rw [heq]
      exact List.mem_append_right _ (List.mem_cons_self _ _))
  · intro pk db s hdb heq
    simp only [Loc.get_id, Loc.get_id_installed, Loc.get_id_other, Except.map,
      Except.ok.injEq, Option.some.injEq] at heq
    cases hd : pyStr db.to_string with
    | nil =>
      rw [hd] at heq
      simp only [List.nil_append] at heq
      injection heq with h1 _
      exact absurd h1 (by decide)
    | cons c t =>
      rw [hd] at heq
      simp only [List.cons_append] at heq
      injection heq with h1 _
      rw [hd] at hdb
      exact hdb (by rw [show (c :: t).head? = some c from rfl, h1])

/-- C5 counterexample: a plain source `Location` whose filename is the
string `'[x]'` and an `OtherLocation` with source `'x'` are different
variants yet produce the same id string, so `get_id` is not collision-free
across variants as the claim states. -/
theorem c5_counterexample :
    Loc.get_id (.src (some "[x]".toList) none) = Loc.get_id (.other (some "x".toList)) ∧
    Loc.src (some "[x]".toList) none ≠ Loc.other (some "x".toList) :=
  ⟨rfl, by decide⟩

theorem c5_witness :
    Loc.get_id (.src (some "f.hs".toList) none) ≠ Loc.get_id (.other (some "f.hs".toList)) ∧
    Loc.get_id (.src (some "f.hs".toList) none)
        ≠ Loc.get_id (.installed (some ⟨"base".toList, some "4.2".toList⟩)
            (PackageDb.mk_init true false none)) ∧
    Loc.get_id (.installed (some ⟨"base".toList, some "4.2".toList⟩)
            (PackageDb.mk_init true false none))
        ≠ Loc.get_id (.other (some "x".toList)) :=
  ⟨c5_get_id_formats_and_distinctness.2.2.2.2.1 "f.hs".toList none _ (by decide),
   c5_get_id_formats_and_distinctness.2.2.2.2.2.2.1 "f.hs".toList none _ _ (by decide),
   c5_get_id_formats_and_distinctness.2.2.2.2.2.2.2 _ _ _ (by decide)⟩

/-! ### `format_type` lemmas -/

theorem length_dropWhile_le (p : Char → Bool) (l : Str) :
    (l.dropWhile p).length ≤ l.length := by
  induction l with
  | nil => simp
  | cons c rest ih =>
    rw [List.dropWhile_cons]
    split
    · exact Nat.le_succ_of_le ih
    · exact Nat.le_refl _

theorem opTok_shape {c : Char} {rest t r : Str} (h : opTok c rest = some (t, r)) :
    ∃ c2, rest = c2 :: r := by
  cases rest with
  | nil => exact Option.noConfusion h
  | cons c2 r' =>
    refine ⟨c2, ?_⟩
    simp only [opTok] at h
    split at h
    · simp only [Option.some.injEq, Prod.mk.injEq] at h
      rw [h.2]
    · split at h
      · simp only [Option.some.injEq, Prod.mk.injEq] at h
        rw [h.2]
      · split at h
        · simp only [Option.some.injEq, Prod.mk.injEq] at h
          rw [h.2]
        · exact Option.noConfusion h

theorem ftSearch_post_lt :
    ∀ {s pre : Str} {tok : FTTok} {post : Str},
      ftSearch s = some (pre, tok, post) → post.length < s.length := by
  intro s
  induction s with
  | nil => intro pre tok post h; exact Option.noConfusion h
  | cons c rest ih =>
    intro pre tok post h
    simp only [ftSearch] at h
    by_cases ha : c.isAlpha
    · simp only [if_pos ha, Option.some.injEq, Prod.mk.injEq] at h
      obtain ⟨-, -, hpost⟩ := h
      subst hpost
      exact Nat.lt_succ_of_le (length_dropWhile_le _ _)
    · rw [if_neg ha] at h
      cases hop : opTok c rest with
      | some tr =>
        obtain ⟨t1, r1⟩ := tr
        rw [hop] at h
        obtain ⟨c2, hrest⟩ := opTok_shape hop
        simp only [Option.some.injEq, Prod.mk.injEq] at h
        obtain ⟨-, -, hpost⟩ := h
        subst hpost
        rw [hrest]
        simp only [List.length_cons]
        omega
      | none =>
        rw [hop] at h
        rw [Option.map_eq_some'] at h
        obtain ⟨⟨p1, t1, q1⟩, hrest, heq⟩ := h
        simp only [Prod.mk.injEq] at heq
        obtain ⟨-, -, hpost⟩ := heq
        subst hpost
        exact Nat.lt_succ_of_lt (ih hrest)

theorem ftSearch_none_formatF {s : Str} (h : ftSearch s = none) :
    ∀ f, format_typeF f s = htmlEscape s := by
  intro f
  cases f with
  | zero => rfl
  | succ f => simp [format_typeF, h]

theorem format_typeF_fuel :
    ∀ (f : Nat) (s : Str), s.length ≤ f → format_typeF f s = format_type s := by
  intro f
  induction f using Nat.strong_induction_on with
  | _ f ih =>
    intro s hs
    cases f with
    | zero =>
      have : s = [] := List.length_eq_zero.1 (Nat.le_zero.1 hs)
      subst this
      rfl
    | succ f' =>
      cases hfs : ftSearch s with
      | none =>
        rw [ftSearch_none_formatF hfs, format_type, ftSearch_none_formatF hfs]
      | some pr =>
        obtain ⟨pre, tok, post⟩ := pr
        have hlt := ftSearch_post_lt hfs
        rw [show format_typeF (f' + 1) s
            = htmlEscape pre ++ spanFor tok ++ format_typeF f' post from by
          simp [format_typeF, hfs]]
        have hsl : s.length = (s.length - 1) + 1 := by omega
        rw [show format_type s
            = htmlEscape pre ++ spanFor tok ++ format_typeF (s.length - 1) post from by
          rw [format_type, hsl]
          simp [format_typeF, hfs]]
        rw [ih f' (Nat.lt_succ_self _) post (by omega),
          ih (s.length - 1) (by omega) post (by omega)]

/-- C7: `format_type` classifies tokens left to right - an identifier
beginning with an upper-case letter as `type`, a lower-case one as `tyvar`,
the literal tokens `->`, `=>`, `::` as `operator` - escapes and keeps all
intervening text, recurses on the remainder after each matched token, and
returns the escaped remainder when no token matches; on `"f :: a -> B"`
this yields `f`/tyvar, `::`/operator, `a`/tyvar, `->`/operator, `B`/type
with the spaces preserved. -/
theorem c7_format_type_classification :
    (∀ expr : Str, ftSearch expr = none → format_type expr = htmlEscape expr) ∧
    (∀ (expr pre : Str) (tok : FTTok) (post : Str),
        ftSearch expr = some (pre, tok, post) →
        format_type expr = htmlEscape pre ++ spanFor tok ++ format_type post) ∧
    (∀ (c : Char) (s : Str), spanFor (.ident (c :: s))
        = spanWrap (if c.isUpper then "type".toList else "tyvar".toList)
            (htmlEscape (c :: s))) ∧
    (∀ s : Str, spanFor (.op s) = spanWrap "operator".toList (htmlEscape s)) ∧
    format_type "f :: a -> B".toList
      = ("<span class=\"tyvar\">f</span> <span class=\"operator\">::</span>"
          ++ " <span class=\"tyvar\">a</span> <span class=\"operator\">-&gt;</span>"
          ++ " <span class=\"type\">B</span>").toList := by
  refine ⟨?_, ?_, fun c s => rfl, fun s => rfl, ?_⟩
  · intro expr h
    rw [format_type, ftSearch_none_formatF h]
  · intro expr pre tok post h
    have hlt := ftSearch_post_lt h
    have hsl : expr.length = (expr.length - 1) + 1 := by omega
    rw [format_type, hsl]
    simp only [format_typeF, h]
    rw [format_typeF_fuel (expr.length - 1) post (by omega)]
  · rfl

theorem c7_witness :
    format_type [] = htmlEscape [] ∧
    format_type ['B'] = htmlEscape [] ++ spanFor (.ident ['B']) ++ format_type [] :=
  ⟨c7_format_type_classification.1 [] rfl,
   c7_format_type_classification.2.1 ['B'] [] (.ident ['B']) [] rfl⟩

/-! ### Markup safety lemmas -/

theorem sm_append {a b : Str} (ha : SafeMarkup a) (hb : SafeMarkup b) :
    SafeMarkup (a ++ b) := by
  induction ha with
  | nil => simpa using hb
  | plain hc _ ih => exact .plain hc ih
  | ent he _ ih =>
    rw [List.append_assoc]
    exact .ent he ih
  | tag hg _ ih =>
    rw [List.append_assoc]
    exact .tag hg ih
  | link hu _ ih =>
    rw [List.append_assoc, List.append_assoc]
    exact .link hu ih

theorem cleanChar_plain {c : Char} (h : cleanChar c = true) : plainChar c = true := by
  simp only [cleanChar, Bool.and_eq_true] at h
  exact h.1.1

theorem sm_clean {s : Str} (h : cleanStr s = true) : SafeMarkup s := by
  induction s with
  | nil => exact .nil
  | cons c t ih =>
    simp only [cleanStr, List.all_cons, Bool.and_eq_true] at h
    exact .plain (cleanChar_plain h.1) (ih h.2)

theorem escChar_safe (c : Char) {t : Str} (ht : SafeMarkup t) :
    SafeMarkup (escChar c ++ t) := by
  by_cases h1 : c = '&'
  · rw [show escChar c = "&amp;".toList from by simp [escChar, h1]]
    exact .ent (by simp [entities]) ht
  · by_cases h2 : c = '<'
    · rw [show escChar c = "&lt;".toList from by simp [escChar, h1, h2]]
      exact .ent (by simp [entities]) ht
    · by_cases h3 : c = '>'
      · rw [show escChar c = "&gt;".toList from by simp [escChar, h1, h2, h3]]
        exact .ent (by simp [entities]) ht
      · rw [show escChar c = [c] from by simp [escChar, h1, h2, h3]]
        refine .plain ?_ ht
        simp [plainChar, h1, h2, h3]

theorem sm_escape_append (s : Str) {t : Str} (ht : SafeMarkup t) :
    SafeMarkup (htmlEscape s ++ t) := by
  induction s with
  | nil => simpa using ht
  | cons c rest ih =>
    rw [show htmlEscape (c :: rest) = escChar c ++ htmlEscape rest from by
      simp [htmlEscape]]
    rw [List.append_assoc]
    exact escChar_safe c ih

theorem sm_escape (s : Str) : SafeMarkup (htmlEscape s) := by
  simpa using sm_escape_append s .nil

theorem escCharQ_safe (c : Char) {t : Str} (ht : SafeMarkup t) :
    SafeMarkup (escCharQ c ++ t) := by
  by_cases h1 : c = '&'
  · rw [show escCharQ c = "&amp;".toList from by simp [escCharQ, h1]]
    exact .ent (by simp [entities]) ht
  · by_cases h2 : c = '<'
    · rw [show escCharQ c = "&lt;".toList from by simp [escCharQ, h1, h2]]
      exact .ent (by simp [entities]) ht
    · by_cases h3 : c = '>'
      · rw [show escCharQ c = "&gt;".toList from by simp [escCharQ, h1, h2, h3]]
        exact .ent (by simp [entities]) ht
      · by_cases h4 : c = '"'
        · rw [show escCharQ c = "&quot;".toList from by simp [escCharQ, h1, h2, h3, h4]]
          exact .ent (by simp [entities]) ht
        · by_cases h5 : c = Char.ofNat 39
          · rw [show escCharQ c = "&#x27;".toList from by simp [escCharQ, h1, h2, h3, h4, h5]]
            exact .ent (by simp [entities]) ht
          · rw [show escCharQ c = [c] from by simp [escCharQ, h1, h2, h3, h4, h5]]
            refine .plain ?_ ht
            simp [plainChar, h1, h2, h3]

theorem sm_escapeQ (s : Str) : SafeMarkup (htmlEscapeQ s) := by
  have go : ∀ (s : Str) {t : Str}, SafeMarkup t → SafeMarkup (htmlEscapeQ s ++ t) := by
    intro s
    induction s with
    | nil => intro t ht; simpa using ht
    | cons c rest ih =>
      intro t ht
      rw [show htmlEscapeQ (c :: rest) = escCharQ c ++ htmlEscapeQ rest from by
        simp [htmlEscapeQ]]
      rw [List.append_assoc]
      exact escCharQ_safe c (ih ht)
  simpa using go s .nil

theorem cleanChar_ne {c : Char} (h : cleanChar c = true) :
    c ≠ '<' ∧ c ≠ '>' ∧ c ≠ '&' ∧ c ≠ '"' ∧ c ≠ Char.ofNat 39 := by
  refine ⟨fun hx => ?_, fun hx => ?_, fun hx => ?_, fun hx => ?_, fun hx => ?_⟩ <;>
    · rw [hx] at h
      exact absurd h (by decide)

theorem clean_escapeQ_id {s : Str} (h : cleanStr s = true) : htmlEscapeQ s = s := by
  induction s with
  | nil => rfl
  | cons c rest ih =>
    simp only [cleanStr, List.all_cons, Bool.and_eq_true] at h
    obtain ⟨hlt, hgt, hamp, hq, hapos⟩ := cleanChar_ne h.1
    rw [show htmlEscapeQ (c :: rest) = escCharQ c ++ htmlEscapeQ rest from by
      simp [htmlEscapeQ]]
    rw [show escCharQ c = [c] from by simp [escCharQ, hlt, hgt, hamp, hq, hapos]]
    rw [ih h.2]
    rfl

theorem clean_append {a b : Str} (ha : cleanStr a = true) (hb : cleanStr b = true) :
    cleanStr (a ++ b) = true := by
  simp only [cleanStr, List.all_append, Bool.and_eq_true]
  exact ⟨ha, hb⟩

theorem clean_cons {c : Char} {b : Str} (hc : cleanChar c = true)
    (hb : cleanStr b = true) : cleanStr (c :: b) = true := by
  simp only [cleanStr, List.all_cons, Bool.and_eq_true]
  exact ⟨hc, hb⟩

theorem digitChar_clean {n : Nat} (h : n < 10) : cleanChar (digitChar n) = true := by
  interval_cases n <;> decide

theorem natStrAux_clean (f : Nat) : ∀ n, cleanStr (natStrAux f n) = true := by
  induction f with
  | zero => intro n; rfl
  | succ f ih =>
    intro n
    rw [natStrAux]
    split
    · exact clean_cons (digitChar_clean (by omega)) rfl
    · exact clean_append (ih (n / 10))
        (clean_cons (digitChar_clean (Nat.mod_lt _ (by omega))) rfl)

theorem natStr_clean (n : Nat) : cleanStr (natStr n) = true := natStrAux_clean _ n

theorem position_clean (p : Position) : cleanStr p.to_string = true := by
  rw [Position.to_string]
  cases p.column with
  | none => exact natStr_clean _
  | some c => exact clean_append (natStr_clean _) (clean_cons (by decide) (natStr_clean _))

theorem sm_spanWrap {cls : Str} (hcls : spanOpen cls ∈ rtags) {body : Str}
    (hb : SafeMarkup body) {t : Str} (ht : SafeMarkup t) :
    SafeMarkup (spanWrap cls body ++ t) := by
  rw [show spanWrap cls body ++ t
      = spanOpen cls ++ (body ++ ("</span>".toList ++ t)) from by
    simp [spanWrap, List.append_assoc]]
  exact .tag hcls (sm_append hb (.tag (by simp [rtags]) ht))

theorem sm_linkWrap {u : Str} (hu : cleanStr u = true) {body : Str}
    (hb : SafeMarkup body) {t : Str} (ht : SafeMarkup t) :
    SafeMarkup (linkWrap u body ++ t) := by
  rw [show linkWrap u body ++ t
      = "<a href=\"".toList ++ u ++ '"' :: '>' :: (body ++ ("</a>".toList ++ t)) from by
    simp [linkWrap, List.append_assoc]]
  exact .link hu (sm_append hb (.tag (by simp [rtags]) ht))

theorem sm_intercalate {sep : Str} (hsep : ∀ t, SafeMarkup t → SafeMarkup (sep ++ t)) :
    ∀ xs : List Str, (∀ x ∈ xs, SafeMarkup x) → SafeMarkup (List.intercalate sep xs) := by
  intro xs
  induction xs with
  | nil => intro _; simp [List.intercalate]; exact .nil
  | cons x rest ih =>
    intro hx
    cases rest with
    | nil =>
      simpa [List.intercalate] using hx x (by simp)
    | cons y ys =>
      rw [show List.intercalate sep (x :: y :: ys)
          = x ++ (sep ++ List.intercalate sep (y :: ys)) from by
        simp [List.intercalate, List.intersperse]]
      refine sm_append (hx x (by simp)) (hsep _ (ih ?_))
      intro z hz
      exact hx z (List.mem_cons_of_mem _ hz)

theorem sm_escapeLine (line : Str) : SafeMarkup (escapeLine line) := by
  rw [escapeLine]
  have hrep : ∀ n : Nat, SafeMarkup (List.replicate n "&nbsp;".toList).flatten := by
    intro n
    induction n with
    | zero => exact .nil
    | succ k ih =>
      rw [List.replicate_succ, List.flatten_cons]
      exact .ent (by simp [entities]) ih
  exact sm_append (hrep _) (sm_escape _)

theorem sm_escape_text (txt : Str) : SafeMarkup (escape_text txt) := by
  rw [escape_text]
  refine sm_intercalate (fun t ht => .tag (by simp [rtags]) ht) _ ?_
  intro x hx
  obtain ⟨l, -, rfl⟩ := List.mem_map.1 hx
  exact sm_escapeLine l

theorem sm_spanFor (tok : FTTok) : ∀ {t : Str}, SafeMarkup t →
    SafeMarkup (spanFor tok ++ t) := by
  intro t ht
  cases tok with
  | ident s =>
    rw [show spanFor (.ident s) = spanWrap (identClass s) (htmlEscape s) from rfl]
    have hcls : spanOpen (identClass s) ∈ rtags := by
      cases s with
      | nil => simp [identClass, rtags]
      | cons c cs =>
        by_cases hu : c.isUpper <;> simp [identClass, hu, rtags]
    exact sm_spanWrap hcls (sm_escape s) ht
  | op s =>
    rw [show spanFor (.op s) = spanWrap "operator".toList (htmlEscape s) from rfl]
    exact sm_spanWrap (by simp [rtags]) (sm_escape s) ht

theorem sm_format_typeF (f : Nat) : ∀ s : Str, SafeMarkup (format_typeF f s) := by
  induction f with
  | zero => intro s; exact sm_escape s
  | succ f ih =>
    intro s
    rw [format_typeF]
    cases hfs : ftSearch s with
    | none => exact sm_escape s
    | some pr =>
      obtain ⟨pre, tok, post⟩ := pr
      show SafeMarkup (htmlEscape pre ++ spanFor tok ++ format_typeF f post)
      rw [List.append_assoc]
      exact sm_escape_append pre (sm_spanFor tok (ih post))

theorem sm_format_type (s : Str) : SafeMarkup (format_type s) :=
  sm_format_typeF s.length s

theorem sm_plain_pre {a t : Str} (ha : a.all plainChar = true) (ht : SafeMarkup t) :
    SafeMarkup (a ++ t) := by
  induction a with
  | nil => simpa using ht
  | cons c rest ih =>
    simp only [List.all_cons, Bool.and_eq_true] at ha
    exact .plain ha.1 (ih ha.2)

theorem sm_spanWrap0 {cls : Str} (hcls : spanOpen cls ∈ rtags) {body : Str}
    (hb : SafeMarkup body) : SafeMarkup (spanWrap cls body) := by
  have := sm_spanWrap hcls hb SafeMarkup.nil
  simpa using this

theorem sm_linkWrap0 {u : Str} (hu : cleanStr u = true) {body : Str}
    (hb : SafeMarkup body) : SafeMarkup (linkWrap u body) := by
  have := sm_linkWrap hu hb SafeMarkup.nil
  simpa using this

theorem sm_nbsp4 {t : Str} (ht : SafeMarkup t) : SafeMarkup (nbsp4 ++ t) := by
  rw [show nbsp4 ++ t = "&nbsp;".toList
      ++ ("&nbsp;".toList ++ ("&nbsp;".toList ++ ("&nbsp;".toList ++ t))) from rfl]
  exact .ent (by simp [entities]) (.ent (by simp [entities])
    (.ent (by simp [entities]) (.ent (by simp [entities]) ht)))

theorem pyStr_clean {f : Option Str} (h : ∀ fs, f = some fs → cleanStr fs = true) :
    cleanStr (pyStr f) = true := by
  cases f with
  | none => decide
  | some fs => exact h fs rfl

theorem package_id_clean {pk : Package} (h : cleanOptPackage (some pk) = true) :
    cleanStr pk.package_id = true := by
  simp only [cleanOptPackage, Bool.and_eq_true] at h
  rw [Package.package_id]
  cases hv : pk.version with
  | none => exact h.1
  | some v =>
    refine clean_append h.1 (clean_cons (by decide) ?_)
    have := h.2
    rw [hv] at this
    exact this

theorem dotDash_clean {s : Str} (h : cleanStr s = true) :
    cleanStr (s.map dotDash) = true := by
  induction s with
  | nil => rfl
  | cons c rest ih =>
    simp only [cleanStr, List.all_cons, Bool.and_eq_true] at h
    rw [List.map_cons]
    refine clean_cons ?_ (ih h.2)
    rw [dotDash]
    split
    · decide
    · exact h.1

theorem hackage_url_clean {pk : Package} {mn : Str}
    (hp : cleanOptPackage (some pk) = true) (hm : cleanStr mn = true) :
    cleanStr (hackage_url pk mn) = true := by
  rw [hackage_url]
  refine clean_append (clean_append (clean_append (clean_append (by decide)
    (package_id_clean hp)) (by decide)) (dotDash_clean hm)) (by decide)

theorem defined_module_clean {d : Decl} (hc : CleanEnvB d = true) {m : ModuleB}
    (hdm : d.defined_module = some m) :
    cleanStr m.name = true ∧ cleanOptLoc m.location = true := by
  simp only [CleanEnvB, Bool.and_eq_true] at hc
  rw [Decl.defined_module] at hdm
  cases hdef : d.defined with
  | some m0 =>
    rw [hdef] at hdm
    simp only [Option.some_orElse, Option.some.injEq] at hdm
    subst hdm
    have := hc.2
    rw [hdef] at this
    simpa [cleanOptModB, Bool.and_eq_true] using this
  | none =>
    rw [hdef] at hdm
    simp only [Option.none_orElse] at hdm
    have := hc.1
    rw [hdm] at this
    simpa [cleanOptModB, Bool.and_eq_true] using this

theorem cleanOptLoc_src {fs : Str} {pr : Option Str}
    (h : cleanOptLoc (some (.src (some fs) pr)) = true) : cleanStr fs = true := by
  simpa [cleanOptLoc] using h

theorem gsl_clean {d : Decl} (hc : CleanEnvB d = true) {s : Str}
    (h : d.get_source_location = .ok (some s)) : cleanStr s = true := by
  rw [Decl.get_source_location] at h
  cases hhs : d.has_source_location with
  | error e => rw [hhs] at h; exact Except.noConfusion h
  | ok b =>
    rw [hhs] at h
    cases b with
    | false =>
      simp [Bind.bind, Except.bind, Pure.pure] at h
      exact Option.noConfusion (Except.ok.inj h)
    | true =>
      simp only [Bind.bind, Except.bind, if_true] at h
      cases hdm : d.defined_module with
      | none => simp only [hdm] at h; exact Except.noConfusion h
      | some m =>
        simp only [hdm] at h
        cases hml : m.location with
        | none => simp only [hml] at h; exact Except.noConfusion h
        | some loc =>
          simp only [hml] at h
          cases hsl : source_location loc d.position with
          | error e => rw [hsl] at h; exact Except.noConfusion h
          | ok ls =>
            rw [hsl] at h
            simp only [Except.map, Except.ok.injEq, Option.some.injEq] at h
            subst h
            -- `has_source_location` forces a source location with a position
            rw [Decl.has_source_location, Decl.by_source, hdm] at hhs
            simp only [Except.map, Except.ok.injEq, Bool.and_eq_true] at hhs
            obtain ⟨hsrc, hpos⟩ := hhs
            rw [hml] at hsrc
            cases hloc : loc with
            | src f pr =>
              cases hf : f with
              | none =>
                rw [hloc, hf] at hsl
                cases hp : d.position with
                | none =>
                  rw [hp] at hsl
                  exact Except.noConfusion hsl
                | some p =>
                  rw [hp] at hsl
                  simp only [source_location, Loc.strMeth, Except.map] at hsl
                  exact Except.noConfusion hsl
              | some fs =>
                have hclean : cleanStr fs = true := by
                  obtain ⟨-, hl⟩ := defined_module_clean hc hdm
                  rw [hml, hloc, hf] at hl
                  exact cleanOptLoc_src hl
                cases hp : d.position with
                | none =>
                  rw [hp] at hpos
                  exact absurd hpos (by simp)
                | some p =>
                  rw [hloc, hf, hp] at hsl
                  simp only [source_location, Loc.strMeth, Except.map,
                    Except.ok.injEq] at hsl
                  rw [← hsl]
                  exact clean_append hclean (clean_cons (by decide) (position_clean p))
            | installed pk db =>
              rw [hloc] at hsrc
              simp [locIsSrc] at hsrc
            | other src =>
              rw [hloc] at hsrc
              simp [locIsSrc] at hsrc

theorem link_source_info_safe {d : Decl} (hc : CleanEnvB d = true) {info : Str}
    (hi : SafeMarkup info) :
    ∀ {out : Str}, d.link_source_info info = .ok out → SafeMarkup out := by
  intro out h
  rw [Decl.link_source_info] at h
  cases hhs : d.has_source_location with
  | error e => rw [hhs] at h; exact Except.noConfusion h
  | ok b =>
    rw [hhs] at h
    cases b with
    | false =>
      simp [Bind.bind, Except.bind] at h
      exact Except.ok.inj h ▸ hi
    | true =>
      simp only [Bind.bind, Except.bind, if_true] at h
      cases hg : d.get_source_location with
      | error e => rw [hg] at h; exact Except.noConfusion h
      | ok slo =>
        rw [hg] at h
        cases slo with
        | none => exact Except.noConfusion h
        | some sl =>
          have heq := Except.ok.inj h
          rw [← heq]
          have hclean := gsl_clean hc hg
          rw [clean_escapeQ_id hclean]
          exact sm_linkWrap0 hclean hi

/-- The literal `' <span class="operator">::</span> '` of
`Function.popup_brief` prepends safely. -/
theorem sm_oplit {t : Str} (ht : SafeMarkup t) :
    SafeMarkup (" <span class=\"operator\">::</span> ".toList ++ t) := by
  rw [show " <span class=\"operator\">::</span> ".toList ++ t
      = ' ' :: (spanOpen "operator".toList
          ++ (':' :: ':' :: ("</span>".toList ++ (' ' :: t)))) from rfl]
  exact .plain (by decide) (.tag (by simp [rtags]) (.plain (by decide)
    (.plain (by decide) (.tag (by simp [rtags]) (.plain (by decide) ht)))))

theorem popup_brief_safe {d : Decl} (hc : CleanEnvB d = true) :
    ∀ {out : Str}, d.popup_brief = .ok out → SafeMarkup out := by
  intro out h
  rw [Decl.popup_brief] at h
  cases hk : d.kind with
  | base =>
    rw [hk] at h
    exact link_source_info_safe hc
      (sm_spanWrap0 (by simp [rtags]) (sm_escape d.name)) h
  | function ty =>
    rw [hk] at h
    unfold Decl.popup_brief_function at h
    cases hli : d.link_source_info (spanWrap "function".toList (htmlEscape d.name)) with
    | error e => rw [hli] at h; exact Except.noConfusion h
    | ok info =>
      rw [hli] at h
      simp only [Bind.bind, Except.bind] at h
      rw [← Except.ok.inj h, List.append_assoc]
      exact sm_append (link_source_info_safe hc
          (sm_spanWrap0 (by simp [rtags]) (sm_escape d.name)) hli)
        (sm_oplit (sm_format_type _))
  | typeBase ctx args defn =>
    rw [hk] at h
    unfold Decl.popup_brief_typebase at h
    cases hli : d.link_source_info (spanWrap "type".toList (htmlEscape d.name)) with
    | error e => rw [hli] at h; exact Except.noConfusion h
    | ok np =>
      rw [hli] at h
      simp only [Bind.bind, Except.bind] at h
      rw [← Except.ok.inj h]
      have hnp : SafeMarkup np :=
        link_source_info_safe hc
          (sm_spanWrap0 (by simp [rtags]) (sm_escape d.name)) hli
      refine sm_intercalate (fun t ht => .plain (by decide) ht) _ ?_
      intro x hx
      -- peel the `if args` layer
      have hx2 : x ∈ (if truthyOptStr ctx then
            match splitCommaSpace (ctx.getD []) with
            | [c] => [spanWrap "keyword".toList (htmlEscape d.what)]
                ++ [format_type (c ++ " =>".toList)]
            | ctx' => [spanWrap "keyword".toList (htmlEscape d.what)]
                ++ [format_type ('(' :: List.intercalate ", ".toList ctx' ++ ") =>".toList)]
          else [spanWrap "keyword".toList (htmlEscape d.what)]) ++ [np]
          ∨ x = format_type (List.intercalate [' '] args) := by
        by_cases hargs : args.isEmpty
        · rw [if_pos hargs] at hx
          exact Or.inl hx
        · rw [if_neg hargs] at hx
          rcases List.mem_append.1 hx with h1 | h1
          · exact Or.inl h1
          · exact Or.inr (by simpa using h1)
      rcases hx2 with h1 | h1
      · rcases List.mem_append.1 h1 with h2 | h2
        · by_cases hctx : truthyOptStr ctx
          · rw [if_pos hctx] at h2
            rcases hsp : splitCommaSpace (ctx.getD []) with _ | ⟨c0, cs⟩
            · rw [hsp] at h2
              rcases List.mem_append.1 h2 with h3 | h3
              · rw [List.mem_singleton.1 h3]
                exact sm_spanWrap0 (by simp [rtags]) (sm_escape d.what)
              · rw [List.mem_singleton.1 h3]
                exact sm_format_type _
            · rw [hsp] at h2
              cases cs with
              | nil =>
                rcases List.mem_append.1 h2 with h3 | h3
                · rw [List.mem_singleton.1 h3]
                  exact sm_spanWrap0 (by simp [rtags]) (sm_escape d.what)
                · rw [List.mem_singleton.1 h3]
                  exact sm_format_type _
              | cons c1 cs' =>
                rcases List.mem_append.1 h2 with h3 | h3
                · rw [List.mem_singleton.1 h3]
                  exact sm_spanWrap0 (by simp [rtags]) (sm_escape d.what)
                · rw [List.mem_singleton.1 h3]
                  exact sm_format_type _
          · rw [if_neg hctx] at h2
            rw [List.mem_singleton.1 h2]
            exact sm_spanWrap0 (by simp [rtags]) (sm_escape d.what)
        · rw [List.mem_singleton.1 h2]
          exact hnp
      · rw [h1]
        exact sm_format_type _

theorem popup_parts_safe {pb imp dp docs : Str} (hpb : SafeMarkup pb)
    (himp : SafeMarkup imp) (hdp : SafeMarkup dp) (hdocs : SafeMarkup docs) :
    SafeMarkup ("<p>".toList ++ pb ++ imp ++ dp ++ "</p>".toList ++ docs) := by
  simp only [List.append_assoc]
  exact .tag (by simp [rtags])
    (sm_append hpb (sm_append himp (sm_append hdp (.tag (by simp [rtags]) hdocs))))

theorem sm_tag0 {g : Str} (hg : g ∈ rtags) : SafeMarkup g := by
  have h := SafeMarkup.tag hg SafeMarkup.nil
  simpa using h

theorem sm_tag_pre {g t : Str} (hg : g ∈ rtags) (ht : SafeMarkup t) :
    SafeMarkup (g ++ t) := SafeMarkup.tag hg ht

theorem importedPart_safe (names : List Str) :
    SafeMarkup (if names.isEmpty then ([] : Str)
      else "<br>".toList ++ nbsp4 ++ "<span class=\"comment\">-- Imported from ".toList
        ++ htmlEscape (List.intercalate ", ".toList names) ++ "</span>".toList) := by
  split
  · exact .nil
  · simp only [List.append_assoc]
    refine sm_tag_pre (by simp [rtags]) (sm_nbsp4 ?_)
    rw [show ("<span class=\"comment\">-- Imported from ".toList : Str)
        = spanOpen "comment".toList ++ "-- Imported from ".toList from rfl]
    rw [List.append_assoc]
    exact sm_tag_pre (by simp [rtags]) (sm_plain_pre (by decide)
      (sm_escape_append _ (sm_tag0 (by simp [rtags]))))

theorem definedPart_safe {mref : Str} (hm : SafeMarkup mref) :
    SafeMarkup ("<br>".toList ++ nbsp4 ++ "<span class=\"comment\">-- Defined in ".toList
      ++ mref ++ "</span>".toList) := by
  simp only [List.append_assoc]
  refine sm_tag_pre (by simp [rtags]) (sm_nbsp4 ?_)
  rw [show ("<span class=\"comment\">-- Defined in ".toList : Str)
      = spanOpen "comment".toList ++ "-- Defined in ".toList from rfl]
  rw [List.append_assoc]
  exact sm_tag_pre (by simp [rtags]) (sm_plain_pre (by decide)
    (sm_append hm (sm_tag0 (by simp [rtags]))))

theorem docsPart_safe (docs : Option Str) :
    SafeMarkup (if truthyOptStr docs then
      "<p><span class=\"docs\">".toList ++ escape_text (docs.getD [])
        ++ "</span></p>".toList
      else ([] : Str)) := by
  split
  · rw [show ("<p><span class=\"docs\">".toList : Str)
        = "<p>".toList ++ spanOpen "docs".toList from rfl]
    rw [show ("</span></p>".toList : Str) = "</span>".toList ++ "</p>".toList from rfl]
    simp only [List.append_assoc]
    exact sm_tag_pre (by simp [rtags]) (sm_tag_pre (by simp [rtags])
      (sm_append (sm_escape_text _) (sm_tag_pre (by simp [rtags])
        (sm_tag0 (by simp [rtags])))))
  · exact .nil

theorem cleanOptLoc_src_opt {f pr : Option Str}
    (h : cleanOptLoc (some (.src f pr)) = true) :
    ∀ fs, f = some fs → cleanStr fs = true := by
  intro fs hf
  subst hf
  simpa [cleanOptLoc] using h

theorem cleanOptLoc_installed {pk : Package} {db : PackageDb}
    (h : cleanOptLoc (some (.installed (some pk) db)) = true) :
    cleanOptPackage (some pk) = true := by
  simpa [cleanOptLoc] using h

theorem popup_safe {d : Decl} (hc : CleanEnvB d = true) :
    ∀ {out : Str}, d.popup = .ok out → SafeMarkup out := by
  intro out h
  unfold Decl.popup at h
  cases hpb : d.popup_brief with
  | error e => rw [hpb] at h; exact Except.noConfusion h
  | ok pb =>
    rw [hpb] at h
    simp only [Bind.bind, Except.bind] at h
    have hpbs : SafeMarkup pb := popup_brief_safe hc hpb
    cases hdm : d.defined_module with
    | none =>
      simp only [hdm] at h
      simp only [Pure.pure, Except.pure, Except.bind, Except.ok.injEq] at h
      rw [← h]
      exact popup_parts_safe hpbs (importedPart_safe _) .nil (docsPart_safe _)
    | some m =>
      simp only [hdm] at h
      obtain ⟨hmn, hml0⟩ := defined_module_clean hc hdm
      cases hml : m.location with
      | none =>
        simp only [hml] at h
        simp only [Bind.bind, Except.bind, Pure.pure, Except.pure,
          Except.ok.injEq] at h
        rw [← h]
        exact popup_parts_safe hpbs (importedPart_safe _)
          (definedPart_safe (sm_escape m.name)) (docsPart_safe _)
      | some loc =>
        simp only [hml] at h
        rw [hml] at hml0
        cases loc with
        | src f pr =>
          simp only [Bind.bind, Except.bind, Pure.pure, Except.pure,
            Except.ok.injEq] at h
          rw [← h]
          refine popup_parts_safe hpbs (importedPart_safe _)
            (definedPart_safe ?_) (docsPart_safe _)
          exact sm_linkWrap0 (pyStr_clean (cleanOptLoc_src_opt hml0))
            (sm_escape m.name)
        | installed p db =>
          cases hp : p with
          | none =>
            simp only [hp] at h
            exact Except.noConfusion h
          | some pk =>
            simp only [hp] at h
            simp only [Bind.bind, Except.bind, Pure.pure, Except.pure,
              Except.ok.injEq] at h
            rw [← h]
            refine popup_parts_safe hpbs (importedPart_safe _)
              (definedPart_safe ?_) (docsPart_safe _)
            rw [hp] at hml0
            have hurl := hackage_url_clean (cleanOptLoc_installed hml0) hmn
            rw [clean_escapeQ_id hurl]
            exact sm_linkWrap0 hurl (sm_escape m.name)
        | other src0 =>
          simp only [Bind.bind, Except.bind, Pure.pure, Except.pure,
            Except.ok.injEq] at h
          rw [← h]
          exact popup_parts_safe hpbs (importedPart_safe _)
            (definedPart_safe (sm_escape m.name)) (docsPart_safe _)

/-- C6: for any declaration - base, `Function` or `TypeBase` variant - whose
environment strings (module names, filenames, package data) are free of
markup characters, any successful render of `popup_brief()` or `popup()`
satisfies `SafeMarkup`: the output is assembled only from plain characters,
`html.escape` entities, the renderer's own tags, and clean link URLs.  The
`name`, `docs` and `type`/`context`/`args` fields range over *all* strings,
so no raw unescaped `<`, `>` or `&` originating from them can reach the
output. -/
theorem c6_popup_escapes_fields (d : Decl) (hc : CleanEnvB d = true) :
    (∀ out : Str, d.popup_brief = .ok out → SafeMarkup out) ∧
    (∀ out : Str, d.popup = .ok out → SafeMarkup out) :=
  ⟨fun _ h => popup_brief_safe hc h, fun _ h => popup_safe hc h⟩

theorem c6_witness :
    CleanEnvB dWc6 = true ∧ SafeMarkup ((dWc6.popup).toOption.getD []) :=
  ⟨by decide,
   (c6_popup_escapes_fields dWc6 (by decide)).2 ((dWc6.popup).toOption.getD []) rfl⟩

theorem c8_witness :
    ModuleInv (Module.mk_init 7 "W".toList none
      [⟨"Data.List".toList, false, none, none, none⟩]
      [("d".toList, dW0)] (some locW) 5)
    ∧ ModuleInv (mW.add_declaration dW0).2.1 :=
  ⟨c8_module_ownership_invariant.1 7 _ none _ _ (some locW) 5,
   c8_module_ownership_invariant.2 mW dW0 (mW.add_declaration dW0).2.1
     (mW.add_declaration dW0).2.2
     (by constructor <;> simp [mW, Module.mk_init])
     rfl⟩

end SH
